import Mathlib

/-
Verification development for the wardgate file-editing command-line tools
(src/scripts/file_create.py, file_read.py, file_update.py, file_insert.py,
file_patch.py).

Python strings are modelled as lists of characters; the filesystem is a
partial map from paths to file contents; the fallible steps of the atomic
write sequence (writing the temporary file, renaming it over the target)
take explicit success flags; every filesystem access a tool performs is
recorded in an operation trace, so that "rejected before touching the
filesystem" is the statement that the trace is empty.  Floating-point
similarity ratios are modelled as rationals.
-/

/-- Strings are modelled as lists of characters. -/
abbrev Str := List Char

/-- The path separator, os.sep on POSIX. -/
def sep : Str := ['/']

/-- Python str.endswith applied to a one-newline argument: the last character
is a newline. -/
def endsWithNl (s : Str) : Bool :=
  match s.getLast? with
  | some '\n' => true
  | _ => false

/-- Whitespace characters matched by the regex class backslash-s and stripped
by str.strip (the ASCII range, which covers the repository's inputs). -/
def isWs (c : Char) : Bool :=
  c == ' ' || c == '\t' || c == '\n' || c == '\r' || c == '\x0b' || c == '\x0c'

/-- Helper for normalize_ws: replace each maximal run of whitespace by a single
space.  The Boolean records whether the previous character was whitespace. -/
def collapseWsAux : Str → Bool → Str
  | [], _ => []
  | c :: rest, prevWs =>
    if isWs c then
      if prevWs then collapseWsAux rest true
      else ' ' :: collapseWsAux rest true
    else c :: collapseWsAux rest false

/-- Python str.strip: remove leading and trailing whitespace. -/
def pyStrip (s : Str) : Str :=
  ((s.dropWhile isWs).reverse.dropWhile isWs).reverse

/-- normalize_ws from file_patch.py: collapse runs of whitespace to single
spaces, strip edges. -/
def normalize_ws (s : Str) : Str := pyStrip (collapseWsAux s false)

/-- Line-boundary characters of Python str.splitlines. -/
def isLineBoundary (c : Char) : Bool :=
  c == '\n' || c == '\r' || c == '\x0b' || c == '\x0c' || c == '\x1c' ||
    c == '\x1d' || c == '\x1e' || c == '\x85' || c == '\u2028' || c == '\u2029'

/-- Worker for Python str.splitlines keeping line endings; a carriage return
followed by a newline is a single boundary.  The accumulator holds the
characters of the current line in reverse. -/
def splitlinesAux : Str → Str → List Str
  | [], acc => if acc.isEmpty then [] else [acc.reverse]
  | '\r' :: '\n' :: rest, acc => (acc.reverse ++ ['\r', '\n']) :: splitlinesAux rest []
  | c :: rest, acc =>
    if isLineBoundary c then (acc.reverse ++ [c]) :: splitlinesAux rest []
    else splitlinesAux rest (c :: acc)

/-- Python str.splitlines with keepends, as used on file contents by
file_insert.py and file_patch.py. -/
def splitlinesKeep (s : Str) : List Str := splitlinesAux s []

/-- Iterating a Python text-mode file yields chunks ending at each newline
character (universal-newline translation has already produced plain
newlines), as in the numbered-output loop of file_read.py. -/
def splitNlAux : Str → Str → List Str
  | [], acc => if acc.isEmpty then [] else [acc.reverse]
  | c :: rest, acc =>
    if c = '\n' then (acc.reverse ++ ['\n']) :: splitNlAux rest []
    else splitNlAux rest (c :: acc)

/-- Split a file content into the chunks produced by iterating the file. -/
def splitNlKeep (s : Str) : List Str := splitNlAux s []

/-- Python str.rstrip with a newline argument: drop trailing newline
characters. -/
def rstripNl (s : Str) : Str := (s.reverse.dropWhile (fun c => c == '\n')).reverse

/-- The join of the slice lines[i:j], as built by the window loops of
file_patch.py. -/
def chunkOf (lines : List Str) (i j : Nat) : Str := ((lines.drop i).take (j - i)).flatten

/-- Length of the common leading run of equal characters of two strings: the
zip-and-count loops of the similarity helper of file_patch.py. -/
def commonPrefixLen : Str → Str → Nat
  | a :: as, b :: bs => if a = b then commonPrefixLen as bs + 1 else 0
  | _, _ => 0

/-- The similarity helper of file_patch.py (source name begins with an
underscore): matching leading run plus matching trailing run of the
remainders, over the longer length; zero when either string is empty. -/
def similarity (a b : Str) : ℚ :=
  if a = [] ∨ b = [] then 0
  else
    let pre := commonPrefixLen a b
    let suf := commonPrefixLen ((a.drop pre).reverse) ((b.drop pre).reverse)
    ((pre + suf : ℕ) : ℚ) / ((max a.length b.length : ℕ) : ℚ)

/-- Python substring containment (the in operator on strings), used by the
match scans of file_insert.py. -/
def pyIn (needle : Str) : Str → Bool
  | [] => needle.isPrefixOf []
  | c :: rest => needle.isPrefixOf (c :: rest) || pyIn needle rest

/-- Python str.find: index of the leftmost occurrence of a substring, if any. -/
def pyFind (needle : Str) : Str → Option Nat
  | [] => if needle.isPrefixOf [] then some 0 else none
  | c :: rest =>
    if needle.isPrefixOf (c :: rest) then some 0
    else (pyFind needle rest).map (fun n => n + 1)

/-- Worker for Python str.count on a nonempty needle: non-overlapping
occurrences, scanning left to right.  The fuel argument, at least the string
length at every call, makes the skip-ahead recursion structural. -/
def countOccAux (c0 : Char) (sub0 : Str) : Nat → Str → Nat
  | 0, _ => 0
  | _, [] => 0
  | fuel + 1, c :: rest =>
    if (c0 :: sub0).isPrefixOf (c :: rest) then
      countOccAux c0 sub0 fuel (rest.drop sub0.length) + 1
    else countOccAux c0 sub0 fuel rest

/-- Python str.count: an empty needle counts length plus one occurrences. -/
def pyCount (s needle : Str) : Nat :=
  match needle with
  | [] => s.length + 1
  | c0 :: sub0 => countOccAux c0 sub0 s.length s

/-- Worker for Python str.replace on a nonempty needle: replace
non-overlapping occurrences left to right. -/
def pyReplaceAux (c0 : Char) (sub0 new : Str) : Str → Str
  | [] => []
  | c :: rest =>
    if (c0 :: sub0).isPrefixOf (c :: rest) then
      new ++ pyReplaceAux c0 sub0 new (rest.drop sub0.length)
    else c :: pyReplaceAux c0 sub0 new rest
termination_by s => s.length
decreasing_by
  · simp only [List.length_drop, List.length_cons]
    omega
  · simp only [List.length_cons]
    omega

/-- Python str.replace; with an empty needle the replacement is interleaved
around every character. -/
def pyReplace (s needle new : Str) : Str :=
  match needle with
  | [] => new ++ s.flatMap (fun c => c :: new)
  | c0 :: sub0 => pyReplaceAux c0 sub0 new s

/-- The positioning mode of file_insert.py after flag parsing: exactly one of
an explicit line number, an after-match pattern, a before-match pattern, or
the default append (the parsed append flag is never read by the source, the
final else branch appends). -/
inductive InsertMode where
  | afterLine (n : Int)
  | afterMatch (pat : Str)
  | beforeMatch (pat : Str)
  | append

/-- The first index of a line containing the pattern: the enumerate loops of
file_insert.py. -/
def firstLineContaining (pat : Str) : List Str → Option Nat
  | [] => none
  | line :: rest =>
    if pyIn pat line then some 0
    else (firstLineContaining pat rest).map (fun n => n + 1)

/-- Errors reported by the tools; each one terminates the process with exit
status one.  The no-match error carries the closest-match diagnostic of
file_patch.py.  The name-not-defined error is the NameError a run of
file_read.py raises when the loop variable was never bound. -/
inductive ToolErr where
  | pathViolation
  | alreadyExists
  | notExist
  | outOfRange (n : Int) (len : Nat)
  | noLineContains (pat : Str)
  | noMatch (closest : Option (Str × Nat × ℚ))
  | writeFail
  | renameFail
  | nameNotDefined
  deriving DecidableEq

/-- The insertion-point computation of file_insert.py (a zero-based index of
the line the text is inserted before). -/
def computeInsertAt (lines : List Str) : InsertMode → Except ToolErr Nat
  | InsertMode.afterLine n =>
    if n < 0 ∨ (lines.length : Int) < n then Except.error (ToolErr.outOfRange n lines.length)
    else Except.ok n.toNat
  | InsertMode.afterMatch pat =>
    match firstLineContaining pat lines with
    | none => Except.error (ToolErr.noLineContains pat)
    | some idx => Except.ok (idx + 1)
  | InsertMode.beforeMatch pat =>
    match firstLineContaining pat lines with
    | none => Except.error (ToolErr.noLineContains pat)
    | some idx => Except.ok idx
  | InsertMode.append => Except.ok lines.length

/-- The text normalisation of file_insert.py: the inserted block gets a
trailing newline when it lacks one. -/
def insertTextOf (text : Str) : Str :=
  if endsWithNl text then text else text ++ ['\n']

/-- The preceding-line fix of file_insert.py: when the line just before the
insertion point exists and lacks a trailing newline, a newline is appended
to it. -/
def fixPrevLine (lines : List Str) (insert_at : Nat) : List Str :=
  if 0 < insert_at ∧ lines ≠ [] ∧ endsWithNl (lines.getD (insert_at - 1) []) = false then
    lines.set (insert_at - 1) (lines.getD (insert_at - 1) [] ++ ['\n'])
  else lines

/-- The line-level insertion of file_insert.py: slice before the point, the
split inserted block, slice after the point. -/
def insertNewLinesAt (lines : List Str) (text : Str) (insert_at : Nat) : List Str :=
  let fixed := fixPrevLine lines insert_at
  fixed.take insert_at ++ splitlinesKeep (insertTextOf text) ++ fixed.drop insert_at

/-- The content-level core of file_insert.py: split the content, compute the
insertion point, build the new line sequence. -/
def insertNewLines (content text : Str) (mode : InsertMode) : Except ToolErr (List Str) :=
  let lines := splitlinesKeep content
  match computeInsertAt lines mode with
  | Except.error e => Except.error e
  | Except.ok insert_at => Except.ok (insertNewLinesAt lines text insert_at)


/-- The normalised-whitespace match scan of file_patch.py: for each starting
line, the first window (up to the estimated size plus overreach) whose
whitespace-collapsed join equals the collapsed old text, as a byte-offset
span into the content. -/
def findMatchesNW (content old_text : Str) : List (Nat × Nat) :=
  let target_norm := normalize_ws old_text
  let lines := splitlinesKeep content
  let window := max (old_text.count '\n' + 1) 1
  (List.range lines.length).filterMap (fun i =>
    ((List.range' (i + 1) (min (i + window + 3) (lines.length + 1) - (i + 1))).find?
        (fun j => normalize_ws (chunkOf lines i j) == target_norm)).map
      (fun j =>
        let start := ((lines.take i).map List.length).sum
        (start, start + (chunkOf lines i j).length)))

/-- The replacement loop of file_patch.py in normalised-whitespace mode: the
spans are substituted in reverse order by repeated slicing of the current
content. -/
def applyReversed (content new : Str) (found : List (Nat × Nat)) : Str :=
  found.reverse.foldl (fun acc m => acc.take m.1 ++ new ++ acc.drop m.2) content

/-- Worker for the specification-side reading of span substitution: emit the
segment between the previous span's end and the next span's start, then the
new text, then continue after the span. -/
def substFrom (new content : Str) : Nat → List (Nat × Nat) → Str
  | start, [] => content.drop start
  | start, (s, e) :: rest =>
    (content.drop start).take (s - start) ++ new ++ substFrom new content e rest

/-- Specification-side reading of replace-all, from the spec's words: every
listed span of the original content is replaced by the literal new text and
the segments outside the spans are preserved. -/
def substSpansSpec (new content : Str) (spans : List (Nat × Nat)) : Str :=
  substFrom new content 0 spans

/-- Well-formed span lists: ordered, pairwise disjoint, within bounds; the
second argument is a lower bound for the next start. -/
def spansOk (len : Nat) : Nat → List (Nat × Nat) → Bool
  | _, [] => true
  | lo, (s, e) :: rest =>
    decide (lo ≤ s) && decide (s ≤ e) && decide (e ≤ len) && spansOk len e rest

/-- The candidate windows enumerated by find_closest_match of file_patch.py:
for each starting line index, the end indices from the next line up to the
estimated window size with slight overreach, clipped to the line count. -/
def fcmCandidates (numLines window : Nat) : List (Nat × Nat) :=
  (List.range numLines).flatMap (fun i =>
    (List.range' (i + 1) (min (i + window + 2) numLines + 1 - (i + 1))).map (fun j => (i, j)))

/-- One step of the best-window fold of find_closest_match: windows whose
collapsed text is empty are skipped, and a strictly better score replaces
the recorded best snippet and line. -/
def fcmStep (target : Str) (lines : List Str) (best : ℚ × Option (Str × Nat))
    (ij : Nat × Nat) : ℚ × Option (Str × Nat) :=
  let chunk := chunkOf lines ij.1 ij.2
  let norm_chunk := normalize_ws chunk
  if norm_chunk = [] then best
  else
    let score := similarity target norm_chunk
    if best.1 < score then (score, some (rstripNl chunk, ij.1 + 1)) else best

/-- The window-size estimate of file_patch.py: the line count of the old
text, at least one. -/
def fcmWindowSize (old_text : Str) : Nat := max (old_text.count '\n' + 1) 1

/-- The best-window fold of find_closest_match: running best score with the
recorded snippet and one-based line, starting from a zero score and no
snippet. -/
def fcmBest (content old_text : Str) : ℚ × Option (Str × Nat) :=
  (fcmCandidates (splitlinesKeep content).length (fcmWindowSize old_text)).foldl
    (fcmStep (normalize_ws old_text) (splitlinesKeep content)) (0, none)

/-- find_closest_match of file_patch.py: the highest-scoring window when its
score exceeds one half, with its snippet (trailing newlines stripped),
one-based starting line, and score; no result for an empty collapsed old
text. -/
def find_closest_match (content old_text : Str) : Option (Str × Nat × ℚ) :=
  if normalize_ws old_text = [] then none
  else if (1 : ℚ) / 2 < (fcmBest content old_text).1 then
    match (fcmBest content old_text).2 with
    | some (sn, ln) => some (sn, ln, (fcmBest content old_text).1)
    | none => none
  else none

/-- The first-occurrence splice of exact mode in file_patch.py; the scan is
only reached when the occurrence count is positive, so the none branch is
unreachable there. -/
def replaceFirst (content old new : Str) : Str :=
  match pyFind old content with
  | some pos => content.take pos ++ new ++ content.drop (pos + old.length)
  | none => content

/-- The in-memory replacement computation of file_patch.py, both modes: find
the match spans or occurrence count, error with the closest-match diagnostic
when there are none, otherwise build the new content. -/
def patchCompute (content old new : Str) (replaceAll normWs : Bool) : Except ToolErr Str :=
  if normWs then
    let found := findMatchesNW content old
    if found = [] then Except.error (ToolErr.noMatch (find_closest_match content old))
    else Except.ok (applyReversed content new (if replaceAll then found else found.take 1))
  else
    if pyCount content old = 0 then Except.error (ToolErr.noMatch (find_closest_match content old))
    else if replaceAll then Except.ok (pyReplace content old new)
    else Except.ok (replaceFirst content old new)


/-- The filesystem: a partial map from paths to regular-file contents. -/
def Fs := Str → Option Str

/-- Point update of the filesystem. -/
def Fs.set (fs : Fs) (k v : Str) : Fs :=
  fun q => if q = k then some v else fs q

/-- Removal of a path from the filesystem. -/
def Fs.del (fs : Fs) (k : Str) : Fs :=
  fun q => if q = k then none else fs q

/-- Filesystem accesses a tool performs, in order.  An operation is recorded
when it is attempted, whether or not it succeeds.  Parent-directory handling
(os.path.isdir, os.makedirs) is not represented: the model tracks regular
files only. -/
inductive FsOp where
  | statCheck (p : Str)
  | readFile (p : Str)
  | writeNew (p : Str)
  | mkstemp (p : Str)
  | writeTmp (p : Str)
  | rename (src dst : Str)
  | unlink (p : Str)
  deriving DecidableEq

/-- safe_path, duplicated verbatim at the top of all five tools: resolve the
argument, reject unless the resolution equals the working directory or
extends it past a separator.  The resolve parameter stands for
os.path.realpath and the cwd parameter for the already-resolved working
directory. -/
def safe_path (resolve : Str → Str) (cwd : Str) (p : Str) : Option Str :=
  let resolved := resolve p
  if (cwd ++ sep).isPrefixOf resolved = false ∧ resolved ≠ cwd then none
  else some resolved

/-- The atomic write sequence shared by file_update.py (inline), and
file_insert.py and file_patch.py (their identical helper): create a
temporary file, write the content to it, rename it over the target; on a
write or rename failure unlink the temporary file and propagate the error.
The wOk and rOk flags inject the success or failure of the two fallible
steps. -/
def write_atomic (fs : Fs) (path tmp content : Str) (wOk rOk : Bool) :
    Except ToolErr Unit × Fs × List FsOp :=
  let fs1 := fs.set tmp []
  if wOk then
    let fs2 := fs1.set tmp content
    if rOk then
      (Except.ok (), (fs2.del tmp).set path content,
        [FsOp.mkstemp tmp, FsOp.writeTmp tmp, FsOp.rename tmp path])
    else
      (Except.error ToolErr.renameFail, fs2.del tmp,
        [FsOp.mkstemp tmp, FsOp.writeTmp tmp, FsOp.rename tmp path, FsOp.unlink tmp])
  else
    (Except.error ToolErr.writeFail, fs1.del tmp,
      [FsOp.mkstemp tmp, FsOp.writeTmp tmp, FsOp.unlink tmp])

/-- file_create.py: guard the path, fail when it already exists, otherwise
write the content as a new file. -/
def file_create_main (resolve : Str → Str) (cwd : Str) (fs : Fs) (pathArg content : Str) :
    Except ToolErr Unit × Fs × List FsOp :=
  match safe_path resolve cwd pathArg with
  | none => (Except.error ToolErr.pathViolation, fs, [])
  | some path =>
    match fs path with
    | some _ => (Except.error ToolErr.alreadyExists, fs, [FsOp.statCheck path])
    | none =>
      (Except.ok (), fs.set path content, [FsOp.statCheck path, FsOp.writeNew path])

/-- Right-justify a string in a field of width six, as the format
specification of file_read.py does for line numbers. -/
def pad6 (s : Str) : Str :=
  if s.length < 6 then List.replicate (6 - s.length) ' ' ++ s else s

/-- Decimal representation of a line number. -/
def natToStr (n : Nat) : Str := (Nat.repr n).toList

/-- The numbered rendering of file_read.py.  After the loop the trailing
newline check reads the loop variable, which is unbound when the file had no
lines; that run raises a NameError. -/
def numberedOutput (content : Str) : Except ToolErr Str :=
  let lines := splitNlKeep content
  let body :=
    (lines.enum.map (fun kv => pad6 (natToStr (kv.1 + 1)) ++ [' ', '|', ' '] ++ kv.2)).flatten
  match lines.getLast? with
  | none => Except.error ToolErr.nameNotDefined
  | some line =>
    Except.ok (body ++ if line ≠ [] ∧ endsWithNl line = false then ['\n'] else [])

/-- file_read.py: guard the path, fail when the file is missing, then emit the
raw content or the numbered rendering. -/
def file_read_main (resolve : Str → Str) (cwd : Str) (fs : Fs) (pathArg : Str) (raw : Bool) :
    Except ToolErr Str × List FsOp :=
  match safe_path resolve cwd pathArg with
  | none => (Except.error ToolErr.pathViolation, [])
  | some path =>
    match fs path with
    | none => (Except.error ToolErr.notExist, [FsOp.statCheck path])
    | some content =>
      if raw then (Except.ok content, [FsOp.statCheck path, FsOp.readFile path])
      else (numberedOutput content, [FsOp.statCheck path, FsOp.readFile path])

/-- file_update.py: guard the path, fail when the file is missing, then write
the replacement content through the atomic temp-and-rename sequence. -/
def file_update_main (resolve : Str → Str) (cwd : Str) (fs : Fs)
    (pathArg content tmp : Str) (wOk rOk : Bool) :
    Except ToolErr Unit × Fs × List FsOp :=
  match safe_path resolve cwd pathArg with
  | none => (Except.error ToolErr.pathViolation, fs, [])
  | some path =>
    match fs path with
    | none => (Except.error ToolErr.notExist, fs, [FsOp.statCheck path])
    | some _ =>
      let w := write_atomic fs path tmp content wOk rOk
      (w.1, w.2.1, FsOp.statCheck path :: w.2.2)

/-- file_insert.py: guard the path, fail when the file is missing, read it,
compute the new line sequence, and write its join atomically. -/
def file_insert_main (resolve : Str → Str) (cwd : Str) (fs : Fs)
    (pathArg text : Str) (mode : InsertMode) (tmp : Str) (wOk rOk : Bool) :
    Except ToolErr Unit × Fs × List FsOp :=
  match safe_path resolve cwd pathArg with
  | none => (Except.error ToolErr.pathViolation, fs, [])
  | some path =>
    match fs path with
    | none => (Except.error ToolErr.notExist, fs, [FsOp.statCheck path])
    | some content =>
      match insertNewLines content text mode with
      | Except.error e => (Except.error e, fs, [FsOp.statCheck path, FsOp.readFile path])
      | Except.ok newLines =>
        let w := write_atomic fs path tmp newLines.flatten wOk rOk
        (w.1, w.2.1, FsOp.statCheck path :: FsOp.readFile path :: w.2.2)

/-- file_patch.py: guard the path, fail when the file is missing, read it,
compute the replacement (either mode), and write the result atomically; a
zero-match run errors out with the closest-match diagnostic and performs no
write. -/
def file_patch_main (resolve : Str → Str) (cwd : Str) (fs : Fs)
    (pathArg old new : Str) (replaceAll normWs : Bool) (tmp : Str) (wOk rOk : Bool) :
    Except ToolErr Unit × Fs × List FsOp :=
  match safe_path resolve cwd pathArg with
  | none => (Except.error ToolErr.pathViolation, fs, [])
  | some path =>
    match fs path with
    | none => (Except.error ToolErr.notExist, fs, [FsOp.statCheck path])
    | some content =>
      match patchCompute content old new replaceAll normWs with
      | Except.error e => (Except.error e, fs, [FsOp.statCheck path, FsOp.readFile path])
      | Except.ok newContent =>
        let w := write_atomic fs path tmp newContent wOk rOk
        (w.1, w.2.1, FsOp.statCheck path :: FsOp.readFile path :: w.2.2)


/-- Length of the trailing run of newline characters of a string. -/
def trailingNlRun (s : Str) : Nat := (s.reverse.takeWhile (fun c => c == '\n')).length

/-- A resolver for concrete instances: every argument resolves to a fixed
path outside the working directory. -/
def resolveOutside : Str → Str := fun _ => ("/etc".toList)

/-- A resolver for concrete instances: every argument resolves to a fixed
file inside the working directory. -/
def resolveInside : Str → Str := fun _ => ("/w/f".toList)

/-- The working directory of the concrete instances. -/
def cwdW : Str := ("/w".toList)

/-- An empty filesystem. -/
def fsEmpty : Fs := fun _ => none

/-- A filesystem holding one empty file. -/
def fsEmptyFile : Fs := fun q => if q = ("/w/f".toList) then some [] else none

/-- A filesystem holding one file with known content. -/
def fsOldFile : Fs := fun q => if q = ("/w/f".toList) then some ("old".toList) else none

-- ===== Theorems =====

theorem commonPrefixLen_le_left : ∀ a b : Str, commonPrefixLen a b ≤ a.length := by
  intro a
  induction a with
  | nil => intro b; simp [commonPrefixLen]
  | cons c cs ih =>
    intro b
    cases b with
    | nil => simp [commonPrefixLen]
    | cons d ds =>
      by_cases h : c = d
      · simpa [commonPrefixLen, h] using ih ds
      · simp [commonPrefixLen, h]

theorem commonPrefixLen_le_right : ∀ a b : Str, commonPrefixLen a b ≤ b.length := by
  intro a
  induction a with
  | nil => intro b; simp [commonPrefixLen]
  | cons c cs ih =>
    intro b
    cases b with
    | nil => simp [commonPrefixLen]
    | cons d ds =>
      by_cases h : c = d
      · have := ih ds
        simp [commonPrefixLen, h]
        omega
      · simp [commonPrefixLen, h]

theorem similarity_matched_le (a b : Str) :
    commonPrefixLen a b +
        commonPrefixLen ((a.drop (commonPrefixLen a b)).reverse)
          ((b.drop (commonPrefixLen a b)).reverse) ≤ max a.length b.length := by
  have h1 : commonPrefixLen a b ≤ a.length := commonPrefixLen_le_left a b
  have h2 :
      commonPrefixLen ((a.drop (commonPrefixLen a b)).reverse)
          ((b.drop (commonPrefixLen a b)).reverse) ≤
        ((a.drop (commonPrefixLen a b)).reverse).length :=
    commonPrefixLen_le_left _ _
  simp only [List.length_reverse, List.length_drop] at h2
  have : commonPrefixLen a b +
      commonPrefixLen ((a.drop (commonPrefixLen a b)).reverse)
        ((b.drop (commonPrefixLen a b)).reverse) ≤ a.length := by omega
  exact le_trans this (le_max_left _ _)

/-- C9: for every pair of input strings the similarity heuristic returns a
value that is nonnegative, at most one, and equal to the length of the common
prefix run plus the length of the common suffix run of the remainders, divided
by the length of the longer string. -/
theorem C9_similarity_in_unit_interval (a b : Str) :
    0 ≤ similarity a b ∧ similarity a b ≤ 1 ∧
      similarity a b =
        ((commonPrefixLen a b +
            commonPrefixLen ((a.drop (commonPrefixLen a b)).reverse)
              ((b.drop (commonPrefixLen a b)).reverse) : ℕ) : ℚ) /
          ((max a.length b.length : ℕ) : ℚ) := by
  by_cases hab : a = [] ∨ b = []
  · have hnum : commonPrefixLen a b +
        commonPrefixLen ((a.drop (commonPrefixLen a b)).reverse)
          ((b.drop (commonPrefixLen a b)).reverse) = 0 := by
      rcases hab with h | h
      · subst h
        simp [commonPrefixLen]
      · subst h
        cases a with
        | nil => simp [commonPrefixLen]
        | cons c cs => simp [commonPrefixLen]
    refine ⟨?_, ?_, ?_⟩
    · simp [similarity, hab]
    · simp [similarity, hab]
    · simp [similarity, hab, hnum]
  · push_neg at hab
    obtain ⟨ha, hb⟩ := hab
    have hval : similarity a b =
        ((commonPrefixLen a b +
            commonPrefixLen ((a.drop (commonPrefixLen a b)).reverse)
              ((b.drop (commonPrefixLen a b)).reverse) : ℕ) : ℚ) /
          ((max a.length b.length : ℕ) : ℚ) := by
      simp [similarity, ha, hb]
    have hpos : 0 < max a.length b.length := by
      have : 0 < a.length := List.length_pos.mpr ha
      omega
    refine ⟨?_, ?_, hval⟩
    · rw [hval]
      positivity
    · rw [hval]
      rw [div_le_one (by exact_mod_cast hpos)]
      exact_mod_cast similarity_matched_le a b


/-- C1: a path whose resolution neither equals the working directory nor
starts with the working directory plus the separator is rejected by every
one of the five tools with a path-violation error, the filesystem unchanged
and no filesystem operation performed. -/
theorem C1_path_guard_rejects_before_fs (resolve : Str → Str) (cwd : Str) (fs : Fs)
    (p content text old new tmp : Str) (mode : InsertMode)
    (raw replaceAll normWs wOk rOk : Bool)
    (h1 : (cwd ++ sep).isPrefixOf (resolve p) = false) (h2 : resolve p ≠ cwd) :
    file_create_main resolve cwd fs p content = (Except.error ToolErr.pathViolation, fs, []) ∧
    file_read_main resolve cwd fs p raw = (Except.error ToolErr.pathViolation, []) ∧
    file_update_main resolve cwd fs p content tmp wOk rOk =
      (Except.error ToolErr.pathViolation, fs, []) ∧
    file_insert_main resolve cwd fs p text mode tmp wOk rOk =
      (Except.error ToolErr.pathViolation, fs, []) ∧
    file_patch_main resolve cwd fs p old new replaceAll normWs tmp wOk rOk =
      (Except.error ToolErr.pathViolation, fs, []) := by
  have hguard : safe_path resolve cwd p = none := by
    simp [safe_path, h1, h2]
  refine ⟨?_, ?_, ?_, ?_, ?_⟩ <;>
    simp [file_create_main, file_read_main, file_update_main, file_insert_main,
      file_patch_main, hguard]

/-- Witness for C1 at a concrete escaping resolution. -/
theorem C1_path_guard_rejects_before_fs_witness :
    ((cwdW ++ sep).isPrefixOf (resolveOutside ("x".toList)) = false ∧
      resolveOutside ("x".toList) ≠ cwdW) ∧
    file_read_main resolveOutside cwdW fsEmpty ("x".toList) false =
      (Except.error ToolErr.pathViolation, []) :=
  ⟨⟨by decide, by decide⟩,
    (C1_path_guard_rejects_before_fs resolveOutside cwdW fsEmpty ("x".toList) [] [] [] [] []
      InsertMode.append false false false false false (by decide) (by decide)).2.1⟩

/-- C2 counterexample: with after-match on b the tool inserts after the
matched line, yielding a b X c rather than the claimed a X b c. -/
theorem C2_counterexample :
    insertNewLines ("a\nb\nc\n".toList) ("X".toList) (InsertMode.afterMatch ("b".toList)) =
        Except.ok [("a\n".toList), ("b\n".toList), ("X\n".toList), ("c\n".toList)] ∧
      [("a\n".toList), ("b\n".toList), ("X\n".toList), ("c\n".toList)] ≠
        [("a\n".toList), ("X\n".toList), ("b\n".toList), ("c\n".toList)] :=
  ⟨rfl, by decide⟩

/-- C2 amended: on the three-line file, after-line one inserts before the
second line giving a X b c, while after-match on b inserts after the matched
line giving a b X c. -/
theorem C2_insert_examples :
    insertNewLines ("a\nb\nc\n".toList) ("X".toList) (InsertMode.afterLine 1) =
        Except.ok [("a\n".toList), ("X\n".toList), ("b\n".toList), ("c\n".toList)] ∧
      insertNewLines ("a\nb\nc\n".toList) ("X".toList) (InsertMode.afterMatch ("b".toList)) =
        Except.ok [("a\n".toList), ("b\n".toList), ("X\n".toList), ("c\n".toList)] :=
  ⟨rfl, rfl⟩

/-- C4: in normalised-whitespace mode the old text foo-three-spaces-bar
matches the file span foo-newline-two-spaces-bar (both collapse to foo-bar),
and the matched span is replaced by the literal new text with no whitespace
adjustment. -/
theorem C4_patch_normalize_ws_example :
    normalize_ws ("foo   bar".toList) = ("foo bar".toList) ∧
      normalize_ws ("foo\n  bar\n".toList) = ("foo bar".toList) ∧
      findMatchesNW ("foo\n  bar\nbaz\n".toList) ("foo   bar".toList) = [(0, 10)] ∧
      patchCompute ("foo\n  bar\nbaz\n".toList) ("foo   bar".toList) ("NEW".toList) false true =
        Except.ok ("NEWbaz\n".toList) :=
  ⟨rfl, rfl, rfl, rfl⟩

/-- C3: when writing the temporary file or renaming it fails, the update tool
propagates the error, the temporary file is gone, the target content is
unchanged, and the rename is attempted only after a successful write. -/
theorem C3_update_atomic_failure (resolve : Str → Str) (cwd : Str) (fs : Fs)
    (pathArg content tmp path old : Str) (wOk rOk : Bool)
    (h1 : safe_path resolve cwd pathArg = some path)
    (h2 : fs path = some old)
    (h3 : tmp ≠ path)
    (h4 : wOk = false ∨ rOk = false) :
    (file_update_main resolve cwd fs pathArg content tmp wOk rOk).1 =
        Except.error (if wOk then ToolErr.renameFail else ToolErr.writeFail) ∧
      (file_update_main resolve cwd fs pathArg content tmp wOk rOk).2.1 path = some old ∧
      (file_update_main resolve cwd fs pathArg content tmp wOk rOk).2.1 tmp = none ∧
      (wOk = false →
        FsOp.rename tmp path ∉ (file_update_main resolve cwd fs pathArg content tmp wOk rOk).2.2) := by
  have hne : path ≠ tmp := Ne.symm h3
  cases wOk with
  | false =>
    simp [file_update_main, h1, h2, write_atomic, Fs.set, Fs.del, hne, h2]
  | true =>
    rcases h4 with h4 | h4
    · exact absurd h4 (by simp)
    · subst h4
      simp [file_update_main, h1, h2, write_atomic, Fs.set, Fs.del, hne, h2]

/-- Witness for C3: a failing temporary-file write leaves the target content
unchanged. -/
theorem C3_update_atomic_failure_witness :
    (safe_path resolveInside cwdW ("f".toList) = some ("/w/f".toList) ∧
      fsOldFile ("/w/f".toList) = some ("old".toList) ∧
      ("/w/.t".toList : Str) ≠ ("/w/f".toList)) ∧
    (file_update_main resolveInside cwdW fsOldFile ("f".toList) ("new".toList)
        ("/w/.t".toList) false true).2.1 ("/w/f".toList) = some ("old".toList) :=
  ⟨⟨by decide, by decide, by decide⟩,
    (C3_update_atomic_failure resolveInside cwdW fsOldFile ("f".toList) ("new".toList)
      ("/w/.t".toList) ("/w/f".toList) ("old".toList) false true
      (by decide) (by decide) (by decide) (Or.inl rfl)).2.1⟩

/-- C10: reading an existing empty file in numbered mode reaches the branch
where the loop variable was never bound and the run errors out instead of
printing nothing and succeeding. -/
theorem C10_read_empty_file (resolve : Str → Str) (cwd : Str) (fs : Fs) (pathArg path : Str)
    (h1 : safe_path resolve cwd pathArg = some path) (h2 : fs path = some []) :
    file_read_main resolve cwd fs pathArg false =
      (Except.error ToolErr.nameNotDefined, [FsOp.statCheck path, FsOp.readFile path]) := by
  simp [file_read_main, h1, h2, numberedOutput, splitNlKeep, splitNlAux]

/-- Witness for C10 on a concrete empty file. -/
theorem C10_read_empty_file_witness :
    (safe_path resolveInside cwdW ("f".toList) = some ("/w/f".toList) ∧
      fsEmptyFile ("/w/f".toList) = some []) ∧
    file_read_main resolveInside cwdW fsEmptyFile ("f".toList) false =
      (Except.error ToolErr.nameNotDefined,
        [FsOp.statCheck ("/w/f".toList), FsOp.readFile ("/w/f".toList)]) :=
  ⟨⟨by decide, by decide⟩,
    C10_read_empty_file resolveInside cwdW fsEmptyFile ("f".toList) ("/w/f".toList)
      (by decide) (by decide)⟩

theorem firstLineContaining_lt (pat : Str) :
    ∀ (ls : List Str) (idx : Nat), firstLineContaining pat ls = some idx → idx < ls.length := by
  intro ls
  induction ls with
  | nil => intro idx h; simp [firstLineContaining] at h
  | cons l rest ih =>
    intro idx h
    by_cases hc : pyIn pat l = true
    · simp [firstLineContaining, hc] at h
      simp [← h]
    · simp [firstLineContaining, hc] at h
      obtain ⟨m, hm, hidx⟩ := h
      have := ih m hm
      simp
      omega

/-- C8: whenever the insertion-point computation of the insert tool succeeds,
in any positioning mode, the returned zero-based point is at most the line
count. -/
theorem C8_insert_point_in_range (lines : List Str) (mode : InsertMode) (k : Nat)
    (h : computeInsertAt lines mode = Except.ok k) : k ≤ lines.length := by
  cases mode with
  | afterLine n =>
    by_cases hc : n < 0 ∨ (lines.length : Int) < n
    · simp [computeInsertAt, hc] at h
    · simp [computeInsertAt, hc] at h
      push_neg at hc
      omega
  | afterMatch pat =>
    cases hf : firstLineContaining pat lines with
    | none => simp [computeInsertAt, hf] at h
    | some idx =>
      simp [computeInsertAt, hf] at h
      have := firstLineContaining_lt pat lines idx hf
      omega
  | beforeMatch pat =>
    cases hf : firstLineContaining pat lines with
    | none => simp [computeInsertAt, hf] at h
    | some idx =>
      simp [computeInsertAt, hf] at h
      have := firstLineContaining_lt pat lines idx hf
      omega
  | append =>
    simp [computeInsertAt] at h
    omega

/-- Witness for C8 in the default append mode. -/
theorem C8_insert_point_in_range_witness :
    computeInsertAt [("a\n".toList)] InsertMode.append = Except.ok 1 ∧
      1 ≤ ([("a\n".toList)] : List Str).length :=
  ⟨rfl, C8_insert_point_in_range [("a\n".toList)] InsertMode.append 1 rfl⟩

/-- C7 counterexample: a text already ending in two newlines is inserted
unchanged, so the inserted block ends with two trailing newlines, not exactly
one. -/
theorem C7_counterexample :
    insertTextOf ("X\n\n".toList) = ("X\n\n".toList) ∧
      trailingNlRun (insertTextOf ("X\n\n".toList)) = 2 :=
  ⟨rfl, rfl⟩

/-- C7 amended: the inserted block always ends with a trailing newline
(exactly one newline is appended when the text lacks one, existing trailing
newlines are kept), and after the preceding-line fix the line just before
the insertion point ends with a newline, so the insertion never concatenates
onto its content. -/
theorem C7_insert_trailing_newline (text : Str) (lines : List Str) (insert_at : Nat)
    (h1 : 0 < insert_at) (h2 : insert_at ≤ lines.length) :
    endsWithNl (insertTextOf text) = true ∧
      (endsWithNl text = false → insertTextOf text = text ++ ['\n']) ∧
      endsWithNl ((fixPrevLine lines insert_at).getD (insert_at - 1) []) = true := by
  refine ⟨?_, ?_, ?_⟩
  · by_cases h : endsWithNl text = true
    · simp [insertTextOf, h]
    · have hconc : endsWithNl (text ++ ['\n']) = true := by
        simp [endsWithNl, List.getLast?_concat]
      simpa [insertTextOf, h] using hconc
  · intro h
    simp [insertTextOf, h]
  · have hlen : insert_at - 1 < lines.length := by omega
    have hnil : lines ≠ [] := by
      intro hx
      subst hx
      simp at h2
      omega
    by_cases hc : endsWithNl (lines.getD (insert_at - 1) []) = false
    · rw [fixPrevLine, if_pos ⟨h1, hnil, hc⟩]
      simp [List.getD_eq_getElem?_getD, List.getElem?_set_self, hlen, endsWithNl,
        List.getLast?_concat]
    · rw [fixPrevLine, if_neg (fun hx => hc hx.2.2)]
      simpa using hc

/-- Witness for C7 at a one-line file lacking a trailing newline. -/
theorem C7_insert_trailing_newline_witness :
    (0 < 1 ∧ 1 ≤ ([("ab".toList)] : List Str).length) ∧
      endsWithNl (insertTextOf ("t".toList)) = true ∧
      endsWithNl ((fixPrevLine [("ab".toList)] 1).getD 0 []) = true :=
  ⟨⟨by decide, by decide⟩,
    (C7_insert_trailing_newline ("t".toList) [("ab".toList)] 1 (by decide) (by decide)).1,
    (C7_insert_trailing_newline ("t".toList) [("ab".toList)] 1 (by decide) (by decide)).2.2⟩

theorem foldrSubst_eq_substFrom (new : Str) :
    ∀ (ms : List (Nat × Nat)) (content : Str) (e : Nat),
      e ≤ content.length → spansOk content.length e ms = true →
      ms.foldr (fun m acc => acc.take m.1 ++ new ++ acc.drop m.2) content =
        content.take e ++ substFrom new content e ms := by
  intro ms
  induction ms with
  | nil =>
    intro content e he _
    simp [substFrom]
  | cons m rest ih =>
    intro content e he hok
    obtain ⟨s, e2⟩ := m
    simp only [spansOk, Bool.and_eq_true, decide_eq_true_eq] at hok
    obtain ⟨⟨⟨hes, hse2⟩, he2len⟩, hrest⟩ := hok
    have hIH := ih content e2 he2len hrest
    simp only [List.foldr_cons]
    rw [hIH]
    have hA : (content.take e2).length = e2 := by
      rw [List.length_take]
      omega
    have h1 : (content.take e2 ++ substFrom new content e2 rest).take s = content.take s := by
      rw [List.take_append_of_le_length (by omega)]
      rw [List.take_take]
      congr 1
      omega
    have h2 : (content.take e2 ++ substFrom new content e2 rest).drop e2 =
        substFrom new content e2 rest := by
      have hdl := List.drop_left (content.take e2) (substFrom new content e2 rest)
      rwa [hA] at hdl
    have h3 : content.take s = content.take e ++ (content.drop e).take (s - e) := by
      rw [← List.take_add]
      congr 1
      omega
    rw [h1, h2]
    simp only [substFrom]
    rw [h3]
    simp [List.append_assoc]

/-- C5 amended: for every list of found match spans that is ordered by offset
with pairwise non-overlapping in-bounds spans, applying the substitutions in
reverse offset order produces the content in which every span of the original
has been replaced by the literal new text and every other segment is
preserved; overlapping span lists are excluded, where the reverse-order
application can lose a replacement. -/
theorem C5_reverse_order_substitution (content new : Str) (spans : List (Nat × Nat))
    (h : spansOk content.length 0 spans = true) :
    applyReversed content new spans = substSpansSpec new content spans := by
  have hmain := foldrSubst_eq_substFrom new spans content 0 (Nat.zero_le _) h
  unfold applyReversed substSpansSpec
  rw [List.foldl_reverse]
  simpa using hmain

/-- C5 counterexample: on the four-character content the finder returns the
overlapping spans shown, and reverse-order application yields a single copy
of the new text where per-span substitution of the original content yields
two. -/
theorem C5_counterexample :
    findMatchesNW (" \na\n".toList) ("a".toList) = [(0, 4), (2, 4)] ∧
      applyReversed (" \na\n".toList) ("X".toList) [(0, 4), (2, 4)] = ("X".toList) ∧
      substSpansSpec ("X".toList) (" \na\n".toList) [(0, 4), (2, 4)] = ("XX".toList) ∧
      ("X".toList : Str) ≠ ("XX".toList) ∧
      spansOk (" \na\n".toList : Str).length 0 [(0, 4), (2, 4)] = false :=
  ⟨rfl, rfl, rfl, by decide, rfl⟩

/-- Witness for C5 on disjoint ordered spans. -/
theorem C5_reverse_order_substitution_witness :
    spansOk ("abcdef".toList : Str).length 0 [(1, 2), (4, 5)] = true ∧
      applyReversed ("abcdef".toList) ("X".toList) [(1, 2), (4, 5)] =
        substSpansSpec ("X".toList) ("abcdef".toList) [(1, 2), (4, 5)] :=
  ⟨by decide,
    C5_reverse_order_substitution ("abcdef".toList) ("X".toList) [(1, 2), (4, 5)] (by decide)⟩

theorem similarity_nonneg (a b : Str) : 0 ≤ similarity a b := by
  by_cases hab : a = [] ∨ b = []
  · simp [similarity, hab]
  · push_neg at hab
    simp only [similarity, hab.1, hab.2, or_self, if_false]
    positivity

theorem similarity_empty_right (a : Str) : similarity a [] = 0 := by
  simp [similarity]

theorem fcmStep_fst_ge (target : Str) (lines : List Str) (best : ℚ × Option (Str × Nat))
    (p : Nat × Nat) : best.1 ≤ (fcmStep target lines best p).1 := by
  unfold fcmStep
  by_cases h1 : normalize_ws (chunkOf lines p.1 p.2) = []
  · simp [h1]
  · by_cases h2 : best.1 < similarity target (normalize_ws (chunkOf lines p.1 p.2))
    · simp only [h1, if_false, h2, if_true]
      exact le_of_lt h2
    · simp [h1, h2]

theorem fcmStep_score_le (target : Str) (lines : List Str) (best : ℚ × Option (Str × Nat))
    (p : Nat × Nat) (h0 : 0 ≤ best.1) :
    similarity target (normalize_ws (chunkOf lines p.1 p.2)) ≤ (fcmStep target lines best p).1 := by
  unfold fcmStep
  by_cases h1 : normalize_ws (chunkOf lines p.1 p.2) = []
  · rw [h1]
    simp only [h1, if_true, similarity_empty_right]
    simpa using h0
  · by_cases h2 : best.1 < similarity target (normalize_ws (chunkOf lines p.1 p.2))
    · simp [h1, h2]
    · simp only [h1, if_false, h2]
      exact le_of_not_lt h2

theorem fcmStep_cases (target : Str) (lines : List Str) (best : ℚ × Option (Str × Nat))
    (p : Nat × Nat) :
    fcmStep target lines best p = best ∨
      ∃ sn ln, fcmStep target lines best p =
        (similarity target (normalize_ws (chunkOf lines p.1 p.2)), some (sn, ln)) := by
  unfold fcmStep
  by_cases h1 : normalize_ws (chunkOf lines p.1 p.2) = []
  · left
    simp [h1]
  · by_cases h2 : best.1 < similarity target (normalize_ws (chunkOf lines p.1 p.2))
    · right
      exact ⟨rstripNl (chunkOf lines p.1 p.2), p.1 + 1, by simp [h1, h2]⟩
    · left
      simp [h1, h2]

theorem fcmFold_fst_ge (target : Str) (lines : List Str) :
    ∀ (l : List (Nat × Nat)) (best : ℚ × Option (Str × Nat)),
      best.1 ≤ (l.foldl (fcmStep target lines) best).1 := by
  intro l
  induction l with
  | nil => intro best; simp
  | cons p rest ih =>
    intro best
    simp only [List.foldl_cons]
    exact le_trans (fcmStep_fst_ge target lines best p) (ih (fcmStep target lines best p))

theorem fcmFold_score_le (target : Str) (lines : List Str) :
    ∀ (l : List (Nat × Nat)) (best : ℚ × Option (Str × Nat)), 0 ≤ best.1 →
      ∀ p ∈ l, similarity target (normalize_ws (chunkOf lines p.1 p.2)) ≤
        (l.foldl (fcmStep target lines) best).1 := by
  intro l
  induction l with
  | nil =>
    intro best h0 p hp
    simp at hp
  | cons q rest ih =>
    intro best h0 p hp
    simp only [List.foldl_cons]
    rcases List.mem_cons.mp hp with hpq | hp2
    · subst hpq
      exact le_trans (fcmStep_score_le target lines best p h0)
        (fcmFold_fst_ge target lines rest (fcmStep target lines best p))
    · exact ih (fcmStep target lines best q)
        (le_trans h0 (fcmStep_fst_ge target lines best q)) p hp2

theorem fcmFold_le (target : Str) (lines : List Str) (c : ℚ) :
    ∀ (l : List (Nat × Nat)) (best : ℚ × Option (Str × Nat)),
      best.1 ≤ c →
      (∀ p ∈ l, similarity target (normalize_ws (chunkOf lines p.1 p.2)) ≤ c) →
      (l.foldl (fcmStep target lines) best).1 ≤ c := by
  intro l
  induction l with
  | nil =>
    intro best hb _
    simpa using hb
  | cons q rest ih =>
    intro best hb hall
    simp only [List.foldl_cons]
    refine ih (fcmStep target lines best q) ?_ (fun p hp => hall p (List.mem_cons_of_mem q hp))
    have hq := hall q (List.mem_cons_self q rest)
    unfold fcmStep
    by_cases h1 : normalize_ws (chunkOf lines q.1 q.2) = []
    · simpa [h1] using hb
    · by_cases h2 : best.1 < similarity target (normalize_ws (chunkOf lines q.1 q.2))
      · simpa [h1, h2] using hq
      · simpa [h1, h2] using hb

theorem fcmFold_snd_some_or_eq (target : Str) (lines : List Str) :
    ∀ (l : List (Nat × Nat)) (best : ℚ × Option (Str × Nat)),
      l.foldl (fcmStep target lines) best = best ∨
        ∃ sn ln, (l.foldl (fcmStep target lines) best).2 = some (sn, ln) := by
  intro l
  induction l with
  | nil =>
    intro best
    left
    rfl
  | cons q rest ih =>
    intro best
    simp only [List.foldl_cons]
    rcases fcmStep_cases target lines best q with hstep | ⟨sn, ln, hstep⟩
    · rw [hstep]
      exact ih best
    · rcases ih (fcmStep target lines best q) with hfold | hsome
      · right
        rw [hfold, hstep]
        exact ⟨sn, ln, rfl⟩
      · right
        exact hsome

/-- C6 amended: when some candidate window scores strictly above one half the
no-match diagnostic reports a closest match; when no candidate window scores
above one half no suggestion is produced; and a zero-match patch run, in
either mode, exits with the no-match error carrying that diagnostic, the
filesystem unchanged and no write performed. -/
theorem C6_no_match_diagnostic (content old_text : Str) :
    ((∃ p ∈ fcmCandidates (splitlinesKeep content).length (fcmWindowSize old_text),
        (1 : ℚ) / 2 <
          similarity (normalize_ws old_text)
            (normalize_ws (chunkOf (splitlinesKeep content) p.1 p.2))) →
      (find_closest_match content old_text).isSome = true) ∧
    ((∀ p ∈ fcmCandidates (splitlinesKeep content).length (fcmWindowSize old_text),
        similarity (normalize_ws old_text)
            (normalize_ws (chunkOf (splitlinesKeep content) p.1 p.2)) ≤ 1 / 2) →
      find_closest_match content old_text = none) ∧
    (∀ (resolve : Str → Str) (cwd : Str) (fs : Fs) (pathArg path new tmp : Str)
        (replaceAll normWs wOk rOk : Bool),
      safe_path resolve cwd pathArg = some path →
      fs path = some content →
      (if normWs then findMatchesNW content old_text = [] else pyCount content old_text = 0) →
      file_patch_main resolve cwd fs pathArg old_text new replaceAll normWs tmp wOk rOk =
        (Except.error (ToolErr.noMatch (find_closest_match content old_text)), fs,
          [FsOp.statCheck path, FsOp.readFile path])) := by
  refine ⟨?_, ?_, ?_⟩
  · rintro ⟨p, hp, hscore⟩
    have htarget : normalize_ws old_text ≠ [] := by
      intro h0
      rw [h0] at hscore
      simp [similarity] at hscore
      norm_num at hscore
    have hbest : (1 : ℚ) / 2 < (fcmBest content old_text).1 := by
      have hle := fcmFold_score_le (normalize_ws old_text) (splitlinesKeep content)
        (fcmCandidates (splitlinesKeep content).length (fcmWindowSize old_text)) (0, none)
        (by norm_num) p hp
      exact lt_of_lt_of_le hscore hle
    have hsnd : ∃ sn ln, (fcmBest content old_text).2 = some (sn, ln) := by
      rcases fcmFold_snd_some_or_eq (normalize_ws old_text) (splitlinesKeep content)
        (fcmCandidates (splitlinesKeep content).length (fcmWindowSize old_text)) (0, none)
        with heq | hsome
      · exfalso
        have h0 : (fcmBest content old_text).1 = 0 := by
          unfold fcmBest
          rw [heq]
        rw [h0] at hbest
        norm_num at hbest
      · exact hsome
    obtain ⟨sn, ln, hsnd⟩ := hsnd
    unfold find_closest_match
    rw [if_neg htarget, if_pos hbest, hsnd]
    rfl
  · intro hall
    by_cases htarget : normalize_ws old_text = []
    · unfold find_closest_match
      rw [if_pos htarget]
    · have hbest : (fcmBest content old_text).1 ≤ 1 / 2 :=
        fcmFold_le (normalize_ws old_text) (splitlinesKeep content) (1 / 2)
          (fcmCandidates (splitlinesKeep content).length (fcmWindowSize old_text)) (0, none)
          (by norm_num) hall
      unfold find_closest_match
      rw [if_neg htarget, if_neg (not_lt.mpr hbest)]
  · intro resolve cwd fs pathArg path new tmp replaceAll normWs wOk rOk hsp hfs hzero
    cases normWs with
    | true =>
      simp only [if_true] at hzero
      simp [file_patch_main, hsp, hfs, patchCompute, hzero]
    | false =>
      simp only [Bool.false_eq_true, if_false] at hzero
      simp [file_patch_main, hsp, hfs, patchCompute, hzero]

/-- C6 counterexample: the file holds a window exactly half similar to the old
text under the heuristic, yet no closest-match diagnostic is produced,
because the source requires a score strictly above one half. -/
theorem C6_counterexample :
    (0, 1) ∈ fcmCandidates (splitlinesKeep ("xb\n".toList)).length (fcmWindowSize ("ab".toList)) ∧
      similarity (normalize_ws ("ab".toList))
          (normalize_ws (chunkOf (splitlinesKeep ("xb\n".toList)) 0 1)) = 1 / 2 ∧
      find_closest_match ("xb\n".toList) ("ab".toList) = none := by
  have hsim : similarity ("ab".toList) ("xb".toList) = 1 / 2 := by
    simp [similarity, commonPrefixLen]
  have hn : normalize_ws (chunkOf (splitlinesKeep ("xb\n".toList)) 0 1) = ("xb".toList) := rfl
  have ht : normalize_ws ("ab".toList) = ("ab".toList) := rfl
  refine ⟨by decide, ?_, ?_⟩
  · rw [hn, ht, hsim]
  · have hc : fcmCandidates (splitlinesKeep ("xb\n".toList)).length (fcmWindowSize ("ab".toList)) =
        [(0, 1)] := rfl
    have hball : ∀ p ∈ fcmCandidates (splitlinesKeep ("xb\n".toList)).length
        (fcmWindowSize ("ab".toList)),
        similarity (normalize_ws ("ab".toList))
          (normalize_ws (chunkOf (splitlinesKeep ("xb\n".toList)) p.1 p.2)) ≤ 1 / 2 := by
      intro p hp
      rw [hc] at hp
      have hp1 : p = (0, 1) := by simpa using hp
      subst hp1
      show similarity (normalize_ws ("ab".toList))
          (normalize_ws (chunkOf (splitlinesKeep ("xb\n".toList)) 0 1)) ≤ 1 / 2
      rw [hn, ht, hsim]
    have hbest : (fcmBest ("xb\n".toList) ("ab".toList)).1 ≤ 1 / 2 :=
      fcmFold_le (normalize_ws ("ab".toList)) (splitlinesKeep ("xb\n".toList)) (1 / 2)
        (fcmCandidates (splitlinesKeep ("xb\n".toList)).length (fcmWindowSize ("ab".toList)))
        (0, none) (by norm_num) hball
    unfold find_closest_match
    rw [if_neg (by decide), if_neg (not_lt.mpr hbest)]

/-- Witness for C6: a window scoring three quarters produces a diagnostic, a
file whose only window scores zero produces none, and a concrete zero-match
exact-mode patch run errors out without mutation. -/
theorem C6_no_match_diagnostic_witness :
    (find_closest_match ("abcd\n".toList) ("abcx".toList)).isSome = true ∧
      find_closest_match ("xq\n".toList) ("ab".toList) = none ∧
      file_patch_main resolveInside cwdW fsOldFile ("f".toList) ("zzz".toList) ("n".toList)
          false false ("/w/.t".toList) true true =
        (Except.error (ToolErr.noMatch (find_closest_match ("old".toList) ("zzz".toList))),
          fsOldFile, [FsOp.statCheck ("/w/f".toList), FsOp.readFile ("/w/f".toList)]) := by
  refine ⟨?_, ?_, ?_⟩
  · refine (C6_no_match_diagnostic ("abcd\n".toList) ("abcx".toList)).1 ⟨(0, 1), by decide, ?_⟩
    have hn : normalize_ws (chunkOf (splitlinesKeep ("abcd\n".toList)) 0 1) =
        ("abcd".toList) := rfl
    have ht : normalize_ws ("abcx".toList) = ("abcx".toList) := rfl
    rw [hn, ht]
    have hsim : similarity ("abcx".toList) ("abcd".toList) = 3 / 4 := by
      simp [similarity, commonPrefixLen]
    rw [hsim]
    norm_num
  · refine (C6_no_match_diagnostic ("xq\n".toList) ("ab".toList)).2.1 ?_
    intro p hp
    have hc : fcmCandidates (splitlinesKeep ("xq\n".toList)).length (fcmWindowSize ("ab".toList)) =
        [(0, 1)] := rfl
    rw [hc] at hp
    have hp1 : p = (0, 1) := by simpa using hp
    subst hp1
    have hn : normalize_ws (chunkOf (splitlinesKeep ("xq\n".toList)) 0 1) = ("xq".toList) := rfl
    have ht : normalize_ws ("ab".toList) = ("ab".toList) := rfl
    rw [hn, ht]
    have hsim : similarity ("ab".toList) ("xq".toList) = 0 := by
      simp [similarity, commonPrefixLen]
    rw [hsim]
    norm_num
  · exact (C6_no_match_diagnostic ("old".toList) ("zzz".toList)).2.2 resolveInside cwdW fsOldFile
      ("f".toList) ("/w/f".toList) ("n".toList) ("/w/.t".toList) false false true true
      (by decide) (by decide) (by decide)
